import Mathlib

/-!
# YD-LightControl: serial port manager and logger

A shallow embedding of `SerialPortManager.cpp`, `SerialPort.h`, `Logger.cpp`,
`Logger.h` and `LoggerMacro.h`.

* `uint8_t` is `Fin 256`; `DWORD`, `int` and `size_t` are `Nat`/`Int` with the
  reduction the C++ conversion performs written out (`toDWORD`, `toInt32`).
* The Win32 calls (`CreateFileA`, `WriteFile`, `ReadFile`, `GetTickCount`, ...)
  are the environment: what each of them returns is an argument of the
  operation, and every call made is appended to the manager's `os` trace.
* `ctx->active` is an atomic flag shared with other threads.  The only store
  of `false` is in `ClosePort`, so an operation in flight sees it as `true`
  up to some read and `false` from then on (`activeAt`).
* The logger's file is the list of records streamed to `m_ofs`; the time stamp
  that `Logger::Log` puts in front of each line is not part of a record.
-/

namespace YDLight

/-! ## Machine integers -/

/-- Value of a `uint8_t`. -/
abbrev Byte := Fin 256

/-- Conversion to `DWORD` (unsigned, 32 bits). -/
def toDWORD (n : Nat) : Nat := n % 2 ^ 32

/-- Conversion to `size_t` (unsigned, 64 bits). -/
def toSizeT (n : Nat) : Nat := n % 2 ^ 64

/-- Conversion to `int` (signed, 32 bits, two's complement). -/
def toInt32 (x : Int) : Int := (x + 2 ^ 31) % 2 ^ 32 - 2 ^ 31

/-- Subtraction of two `DWORD`s, as in `GetTickCount() - start`. -/
def dwordSub (a b : Nat) : Nat := (toDWORD a + 2 ^ 32 - toDWORD b) % 2 ^ 32

/-! ## Hex formatting -/

/-- Output of `oss << std::hex << std::setw(2) << std::setfill('0') << (int)b`:
the value in base 16 with lowercase digits, padded on the left with `'0'` to
width 2. -/
def hexByte (b : Byte) : List Char :=
  let ds := Nat.toDigits 16 b.val
  List.replicate (2 - ds.length) '0' ++ ds

/-- One pass of the loop body of `ToHexString` and of `Logger::LogHex`: the
stream after `<< (int)b << " "`. -/
def hexStep (oss : String) (b : Byte) : String :=
  oss ++ String.mk (hexByte b) ++ " "

/-- Embedding of `ToHexString` (SerialPortManager.cpp): the loop over `data`
on an empty stream. -/
def ToHexString (data : List Byte) : String :=
  data.foldl hexStep ""

/-! ## Logger -/

/-- Embedding of `enum class LogLevel`. -/
inductive LogLevel where
  | DEBUG
  | INFO
  | WARN
  | ERR
  deriving DecidableEq, Repr

/-- Underlying value of a `LogLevel` enumerator. -/
def LogLevel.toNat : LogLevel → Nat
  | .DEBUG => 0
  | .INFO => 1
  | .WARN => 2
  | .ERR => 3

/-- One line streamed to the log file, without its time stamp. -/
structure LogRecord where
  level : LogLevel
  module : String
  msg : String
  deriving DecidableEq, Repr

/-- State of the `Logger` singleton that the manager can observe: the
threshold `m_level` and the records written so far. -/
structure Logger where
  m_level : LogLevel
  records : List LogRecord
  deriving DecidableEq, Repr

/-- Embedding of `Logger::Log`: nothing below the threshold, otherwise one
record is streamed. -/
def Logger.Log (lg : Logger) (level : LogLevel) (module msg : String) : Logger :=
  if level.toNat < lg.m_level.toNat then lg
  else { lg with records := lg.records ++ [⟨level, module, msg⟩] }

/-- Embedding of `Logger::LogHex`; `pfx` is the parameter `prefix`. -/
def Logger.LogHex (lg : Logger) (level : LogLevel) (module pfx : String)
    (data : List Byte) : Logger :=
  if level.toNat < lg.m_level.toNat then lg
  else
    let oss := pfx ++ " LEN=" ++ toString data.length ++ " HEX="
    lg.Log level module (data.foldl hexStep oss)

/-! ## The handle table -/

/-- Embedding of `SerialPortManager::PortContext`.  `hComm` is the value of the
OS handle; the two mutexes carry no data. -/
structure PortContext where
  hComm : Nat
  portName : String
  active : Bool
  deriving DecidableEq, Repr

/-- Embedding of `std::map<int, std::shared_ptr<PortContext>>` as an association list. -/
abbrev PortMap := List (Int × PortContext)

/-- Embedding of `m_ports.find(handleId)`; `none` is `m_ports.end()`. -/
def mapFind : PortMap → Int → Option PortContext
  | [], _ => none
  | (k, v) :: t, handleId => if k = handleId then some v else mapFind t handleId

/-- Embedding of `m_ports.erase(it)` for the iterator found for `handleId`. -/
def mapErase (t : PortMap) (handleId : Int) : PortMap :=
  t.filter (fun e => decide (e.1 ≠ handleId))

/-- Embedding of `m_ports[handleId] = ctx`: the mapped value is replaced when
the key is present, a new entry is made otherwise. -/
def mapSet : PortMap → Int → PortContext → PortMap
  | [], handleId, ctx => [(handleId, ctx)]
  | (k, v) :: t, handleId, ctx =>
    if k = handleId then (k, ctx) :: t else (k, v) :: mapSet t handleId ctx

/-! ## The environment -/

/-- A call into the operating system made by the manager. -/
inductive OsCall where
  | CreateFileA (fullName : String)
  | GetCommState (h : Nat)
  | SetCommState (h : Nat) (baudRate : Int)
  | SetCommTimeouts (h : Nat) (readInterval readTotalConstant : Nat)
  | CloseHandle (h : Nat)
  | WriteFile (h : Nat) (data : List Byte) (nBytes : Nat)
  | ReadFile (h : Nat) (nBytes : Nat)
  | GetTickCount
  | Sleep (ms : Nat)
  deriving DecidableEq, Repr

/-- What the OS answers during one `OpenPort`: the handle `CreateFileA` returns
(`none` is `INVALID_HANDLE_VALUE`), the `BOOL` results of the three
configuration calls, and the text `Logger::GetLastErrorString` yields. -/
structure OpenEnv where
  hFile : Option Nat
  getCommState : Bool
  setCommState : Bool
  setCommTimeouts : Bool
  lastError : String
  deriving DecidableEq, Repr

/-- What one `Send` meets: `closedAt = some c` when another thread's
`ClosePort` stores `false` into `ctx->active` before this call's read number
`c` of the flag (reads are counted from 0), the `BOOL` that `WriteFile`
returns, the value it leaves in `wrote`, and the last-error text. -/
structure SendEnv where
  closedAt : Option Nat
  ok : Bool
  wrote : Nat
  lastError : String
  deriving DecidableEq, Repr

/-- Outcome of one `ReadFile(ctx->hComm, &b, 1, &r, nullptr)`: the `BOOL`
returned, the value left in `r`, and the value of `b` after the call. -/
structure ReadResult where
  ok : Bool
  r : Nat
  b : Byte
  deriving DecidableEq, Repr

/-- What one `Receive` meets: `closedAt` as for `SendEnv` (read 0 is the check
before the loop, read `k + 1` the loop condition before attempt `k`), the tick
count read into `start`, the outcome of the read attempt number `k`, and the
tick count read by the check after attempt `k`. -/
structure RecvEnv where
  closedAt : Option Nat
  start : Nat
  reads : Nat → ReadResult
  ticks : Nat → Nat

/-- Value seen by read number `k` of `ctx->active` during one operation. -/
def activeAt (ctx : PortContext) (closedAt : Option Nat) (k : Nat) : Bool :=
  ctx.active && (match closedAt with
    | none => true
    | some c => decide (k < c))

/-! ## SerialPortManager -/

/-- Value of the source constant `MODULE_NAME`. -/
def MODULE_NAME : String := "SerialPort"

/-- Embedding of `SerialPortManager` together with what it acts on: the table
`m_ports`, the counter `m_nextId`, the `Logger` singleton and the trace of OS
calls made so far. -/
structure SerialPortManager where
  m_ports : PortMap
  m_nextId : Int
  logger : Logger
  os : List OsCall
  deriving DecidableEq, Repr

/-- A freshly constructed manager (`m_nextId{ 1 }`, empty table) next to a
logger with threshold `lvl`. -/
def SerialPortManager.init (lvl : LogLevel) : SerialPortManager :=
  { m_ports := [], m_nextId := 1, logger := ⟨lvl, []⟩, os := [] }

/-- Embedding of `SerialPortManager::OpenPort`. -/
def OpenPort (m : SerialPortManager) (portName : String) (baudRate : Int)
    (env : OpenEnv) : Int × SerialPortManager :=
  let fullName := "\\\\.\\" ++ portName
  match env.hFile with
  | none =>
    (-1, { m with
      os := m.os ++ [OsCall.CreateFileA fullName]
      logger := m.logger.Log LogLevel.ERR MODULE_NAME
        ("Open fail " ++ portName ++ " err=" ++ env.lastError) })
  | some h =>
    let ctx : PortContext := { hComm := h, portName := portName, active := true }
    let handleId := m.m_nextId
    (handleId, { m with
      m_nextId := toInt32 (m.m_nextId + 1)
      m_ports := mapSet m.m_ports handleId ctx
      os := m.os ++ [OsCall.CreateFileA fullName, OsCall.GetCommState h,
        OsCall.SetCommState h baudRate, OsCall.SetCommTimeouts h 10 20]
      logger := m.logger.Log LogLevel.INFO MODULE_NAME
        ("Open ok " ++ portName ++ " baud=" ++ toString baudRate) })

/-- Embedding of `SerialPortManager::ClosePort`.  The store `ctx->active = false`
goes to the context just taken out of the table; operations in flight on it
see the store through `closedAt`. -/
def ClosePort (m : SerialPortManager) (handleId : Int) : SerialPortManager :=
  match mapFind m.m_ports handleId with
  | none => m
  | some ctx =>
    { m with
      m_ports := mapErase m.m_ports handleId
      os := m.os ++ [OsCall.CloseHandle ctx.hComm]
      logger := m.logger.Log LogLevel.INFO MODULE_NAME ("Close " ++ ctx.portName) }

/-- Embedding of `SerialPortManager::Send`. -/
def Send (m : SerialPortManager) (handleId : Int) (data : List Byte)
    (env : SendEnv) : Bool × SerialPortManager :=
  match mapFind m.m_ports handleId with
  | none => (false, m)
  | some ctx =>
    if !activeAt ctx env.closedAt 0 then (false, m)
    else
      let wrote := toDWORD env.wrote
      let os1 := m.os ++ [OsCall.WriteFile ctx.hComm data (toDWORD data.length),
        OsCall.Sleep 10]
      if !env.ok || wrote != toSizeT data.length then
        (false, { m with
          os := os1
          logger := m.logger.Log LogLevel.ERR MODULE_NAME
            ("Send fail " ++ ctx.portName ++ " HEX=" ++ ToHexString data ++
              " err=" ++ env.lastError) })
      else
        (true, { m with
          os := os1
          logger := m.logger.LogHex LogLevel.DEBUG MODULE_NAME "TX" data })

/-- The test `ok && r == 1` on the outcome of a read attempt. -/
def gotByte (rr : ReadResult) : Bool := rr.ok && toDWORD rr.r == 1

/-- The `while (ctx->active)` loop of `Receive`, started at attempt `k` with
`outData = out` and OS trace `os`; `none` when the loop is still running after
`fuel` attempts. -/
def recvLoop (ctx : PortContext) (env : RecvEnv) :
    Nat → Nat → List Byte → List OsCall → Option (List Byte × List OsCall)
  | 0, _, _, _ => none
  | fuel + 1, k, out, os =>
    if !activeAt ctx env.closedAt (k + 1) then some (out, os)
    else
      let rr := env.reads k
      let out1 := if gotByte rr then out ++ [rr.b] else out
      let os1 := os ++ [OsCall.ReadFile ctx.hComm 1] ++
        (if gotByte rr then [OsCall.Sleep 10] else []) ++ [OsCall.GetTickCount]
      if dwordSub (env.ticks k) env.start > 20 then some (out1, os1)
      else recvLoop ctx env fuel (k + 1) out1 os1

/-- Embedding of `SerialPortManager::Receive`: the returned `int`, the content
of `outData` after the call and the manager; `none` when the polling loop is
still running after `fuel` attempts. -/
def Receive (m : SerialPortManager) (handleId : Int) (outData : List Byte)
    (env : RecvEnv) (fuel : Nat) : Option (Int × List Byte × SerialPortManager) :=
  match mapFind m.m_ports handleId with
  | none => some (-1, outData, m)
  | some ctx =>
    if !activeAt ctx env.closedAt 0 then some (-1, outData, m)
    else
      match recvLoop ctx env fuel 0 [] (m.os ++ [OsCall.GetTickCount]) with
      | none => none
      | some (out, os1) =>
        let lg := if !out.isEmpty
          then m.logger.LogHex LogLevel.DEBUG MODULE_NAME "RX" out
          else m.logger.Log LogLevel.WARN MODULE_NAME ("RX timeout " ++ ctx.portName)
        some (toInt32 (Int.ofNat (toSizeT out.length)), out,
          { m with os := os1, logger := lg })

/-! ## Call sequences -/

/-- One call on the manager, with what the environment answers during it. -/
inductive Call where
  | OpenPort (portName : String) (baudRate : Int) (env : OpenEnv)
  | ClosePort (handleId : Int)
  | Send (handleId : Int) (data : List Byte) (env : SendEnv)
  | Receive (handleId : Int) (outData : List Byte) (env : RecvEnv) (fuel : Nat)

/-- What a finished call reports: `opened h` is an `OpenPort` whose device
opened and that returned `h`. -/
inductive Event where
  | opened (h : Int)
  | openFailed
  | closed (h : Int)
  | sent (h : Int) (ok : Bool)
  | received (h : Int) (ret : Int) (outData : List Byte)
  deriving DecidableEq, Repr

/-- One call; `none` when a `Receive` does not return within its fuel. -/
def step (m : SerialPortManager) : Call → Option (SerialPortManager × Event)
  | .OpenPort portName baudRate env =>
    let res := OpenPort m portName baudRate env
    some (res.2, if env.hFile.isSome then Event.opened res.1 else Event.openFailed)
  | .ClosePort handleId => some (ClosePort m handleId, Event.closed handleId)
  | .Send handleId data env =>
    let res := Send m handleId data env
    some (res.2, Event.sent handleId res.1)
  | .Receive handleId outData env fuel =>
    match Receive m handleId outData env fuel with
    | none => none
    | some (ret, out, m1) => some (m1, Event.received handleId ret out)

/-- A sequence of calls run one after the other from manager `m`; `hist` holds
the events so far, newest first. -/
def run (m : SerialPortManager) (hist : List Event) :
    List Call → Option (SerialPortManager × List Event)
  | [] => some (m, hist)
  | c :: cs =>
    match step m c with
    | none => none
    | some (m1, e) => run m1 (e :: hist) cs

/-- Whether handle `h` was returned by a successful `OpenPort` and not passed
to `ClosePort` since; `hist` is newest first. -/
def outstanding : List Event → Int → Bool
  | [], _ => false
  | Event.opened k :: past, h => if k = h then true else outstanding past h
  | Event.closed k :: past, h => if k = h then false else outstanding past h
  | _ :: past, h => outstanding past h

/-- Handles returned by the successful `OpenPort` calls of `hist`, newest first. -/
def openedHandles : List Event → List Int
  | [] => []
  | Event.opened k :: past => k :: openedHandles past
  | _ :: past => openedHandles past

/-! ## Reference formats

The definitions below are not taken from the source: they say what a hex dump
is supposed to look like, and how it is read back. -/

/-- Lowercase hexadecimal digit of a value below 16. -/
def hexDigit (n : Nat) : Char :=
  if n < 10 then Char.ofNat (48 + n) else Char.ofNat (87 + n)

/-- One group of a hex dump: two lowercase digits, high nibble first, and a space. -/
def hexGroup (b : Byte) : List Char :=
  [hexDigit (b.val / 16), hexDigit (b.val % 16), ' ']

/-- Value of a lowercase hexadecimal digit. -/
def hexVal (c : Char) : Nat :=
  if c.toNat < 58 then c.toNat - 48 else c.toNat - 87

/-- Reads a hex dump back, three characters a group. -/
def parseHex : List Char → List Nat
  | hi :: lo :: _ :: rest => (16 * hexVal hi + hexVal lo) :: parseHex rest
  | _ => []

/-- The handles `k, k - 1, ..., 1`: what `k` successful `OpenPort` calls would
return, newest first, were the counter unbounded. -/
def descHandles : Nat → List Int
  | 0 => []
  | k + 1 => ((k + 1 : Nat) : Int) :: descHandles k

/-- An environment in which the device opens and every configuration call succeeds. -/
def openOk : OpenEnv :=
  { hFile := some 7, getCommState := true, setCommState := true,
    setCommTimeouts := true, lastError := "No error" }

/-- The calls of `n` rounds of opening `COM7` and closing the handle obtained. -/
def openCloseRounds : Nat → List Call
  | 0 => []
  | n + 1 => openCloseRounds n ++
      [Call.OpenPort "COM7" 9600 openOk, Call.ClosePort ((n + 1 : Nat) : Int)]

/-- Whether the check after attempt `k` finds more than 20 ms on the tick
counter since `start`. -/
def expired (env : RecvEnv) (k : Nat) : Prop := dwordSub (env.ticks k) env.start > 20

instance (env : RecvEnv) (k : Nat) : Decidable (expired env k) := by
  unfold expired
  infer_instance

/-- The bytes of the attempts `k, ..., k + d - 1` that returned exactly one
byte, in the order they were read. -/
def bytesFrom (env : RecvEnv) : Nat → Nat → List Byte
  | _, 0 => []
  | k, d + 1 =>
    (if gotByte (env.reads k) then [(env.reads k).b] else []) ++ bytesFrom env (k + 1) d

/-- The bytes of the first `n` attempts that returned exactly one byte, in the
order they were read. -/
def receivedBytes (env : RecvEnv) (n : Nat) : List Byte :=
  (List.range n).filterMap
    (fun k => if gotByte (env.reads k) then some (env.reads k).b else none)

/-- A manager on which `COM7` was opened as handle 1. -/
def com7Open : SerialPortManager :=
  (OpenPort (SerialPortManager.init LogLevel.DEBUG) "COM7" 9600 openOk).2

/-- A device that delivers `0x01` and `0x02` on the first two reads and nothing
afterwards; the ticks read by the checks are 10, 20 and then 41 ms after `start`. -/
def echoEnv : RecvEnv :=
  { closedAt := none
    start := 1000
    reads := fun k => if k = 0 then ⟨true, 1, 1⟩ else if k = 1 then ⟨true, 1, 2⟩
      else ⟨false, 0, 2⟩
    ticks := fun k => if k = 0 then 1010 else if k = 1 then 1020 else 1041 }

/-- A device with `0x55` ready on every read, ticks 10 ms after `start`, and a
`ClosePort` from another thread landing before read number `c` of the flag. -/
def closingEnv (c : Nat) : RecvEnv :=
  { closedAt := some c
    start := 1000
    reads := fun _ => ⟨true, 1, 0x55⟩
    ticks := fun _ => 1010 }

/-- The session that `com7Open` holds under handle 1. -/
def com7Ctx : PortContext := { hComm := 7, portName := "COM7", active := true }

/-- A write that the OS reports as completed after one byte only. -/
def shortWrite : SendEnv :=
  { closedAt := none, ok := true, wrote := 1, lastError := "No error" }

/-- A write of two bytes that completes in full while another thread's
`ClosePort` lands right after the entry check. -/
def closedWrite : SendEnv :=
  { closedAt := some 1, ok := true, wrote := 2, lastError := "No error" }

/-- Two opens, a failed open, a close and one more open. -/
def sampleCalls : List Call :=
  [Call.OpenPort "COM7" 9600 openOk, Call.OpenPort "COM8" 9600 openOk,
   Call.OpenPort "COM9" 9600 { openOk with hFile := none },
   Call.ClosePort 1, Call.OpenPort "COM7" 115200 openOk]

/-! ## Invariants of call sequences -/

/-- Every handle of the table is outstanding in the history. -/
def TableOutstanding (m : SerialPortManager) (hist : List Event) : Prop :=
  ∀ h, mapFind m.m_ports h ≠ none → outstanding hist h = true

/-- The counter is one more than the number of successful opens, reduced to
`int`; while fewer than `2 ^ 31` opens have succeeded, the handles returned are
`1, 2, ...` in order. -/
def CounterInv (m : SerialPortManager) (hist : List Event) : Prop :=
  m.m_nextId = toInt32 (1 + ((openedHandles hist).length : Int)) ∧
    ((openedHandles hist).length < 2 ^ 31 →
      openedHandles hist = descHandles (openedHandles hist).length)

/-! ## Hex dumps -/

set_option maxRecDepth 100000 in
theorem hexByte_eq : ∀ b : Byte, hexByte b = [hexDigit (b.val / 16), hexDigit (b.val % 16)] := by
  decide

set_option maxRecDepth 100000 in
theorem hexVal_hexDigit : ∀ b : Byte,
    16 * hexVal (hexDigit (b.val / 16)) + hexVal (hexDigit (b.val % 16)) = b.val := by
  decide

theorem hexStep_eq (oss : String) (b : Byte) :
    hexStep oss b = oss ++ String.mk (hexGroup b) := by
  apply String.ext
  simp [hexStep, hexGroup, hexByte_eq]

theorem foldl_hexStep (data : List Byte) (oss : String) :
    data.foldl hexStep oss = oss ++ String.mk (data.flatMap hexGroup) := by
  induction data generalizing oss with
  | nil => apply String.ext; simp
  | cons b t ih =>
    rw [List.foldl_cons, ih, hexStep_eq]
    apply String.ext
    simp

theorem ToHexString_eq (data : List Byte) :
    ToHexString data = String.mk (data.flatMap hexGroup) := by
  unfold ToHexString
  rw [foldl_hexStep]
  apply String.ext
  simp

theorem length_flatMap_hexGroup (data : List Byte) :
    (data.flatMap hexGroup).length = 3 * data.length := by
  induction data with
  | nil => rfl
  | cons b t ih =>
    rw [List.flatMap_cons, List.length_append, ih]
    simp [hexGroup]
    omega

theorem parseHex_flatMap_hexGroup (data : List Byte) :
    parseHex (data.flatMap hexGroup) = data.map Fin.val := by
  induction data with
  | nil => rfl
  | cons b t ih =>
    rw [List.flatMap_cons]
    show parseHex (hexDigit (b.val / 16) :: hexDigit (b.val % 16) :: ' ' ::
      t.flatMap hexGroup) = _
    simp only [parseHex, ih, List.map_cons, hexVal_hexDigit]

/-- C8. A byte sequence logged through `LogHex` at a level not below the
threshold yields one record whose message is the prefix, `" LEN="`, the length
in decimal, `" HEX="` and the hex part; the hex part is what `ToHexString`
returns, consists of one `hexGroup` (two lowercase zero-padded hex digits and a
space) per byte in input order, has `3 * L` characters, and reads back to the
byte values. -/
theorem LogHex_message (lg : Logger) (level : LogLevel) (module pfx : String)
    (data : List Byte) (hlevel : lg.m_level.toNat ≤ level.toNat) :
    lg.LogHex level module pfx data =
        { lg with records := lg.records ++
          [⟨level, module, pfx ++ " LEN=" ++ toString data.length ++ " HEX=" ++
            ToHexString data⟩] } ∧
      ToHexString data = String.mk (data.flatMap hexGroup) ∧
      (ToHexString data).length = 3 * data.length ∧
      parseHex (ToHexString data).data = data.map Fin.val := by
  have hnot : ¬ level.toNat < lg.m_level.toNat := by omega
  refine ⟨?_, ToHexString_eq data, ?_, ?_⟩
  · simp only [Logger.LogHex, Logger.Log, hnot, if_false]
    rw [foldl_hexStep, ToHexString_eq]
  · rw [ToHexString_eq, String.length_mk, length_flatMap_hexGroup]
  · rw [ToHexString_eq]
    exact parseHex_flatMap_hexGroup data

/-! ## The handle table: lookups after a change -/

theorem mapFind_mapErase_self (t : PortMap) (h : Int) : mapFind (mapErase t h) h = none := by
  induction t with
  | nil => rfl
  | cons e t ih =>
    obtain ⟨k, v⟩ := e
    by_cases hk : k = h
    · simpa [mapErase, List.filter_cons, hk] using ih
    · simpa [mapErase, List.filter_cons, hk, mapFind] using ih

theorem mapFind_mapErase_ne (t : PortMap) (h k : Int) (hne : k ≠ h) :
    mapFind (mapErase t h) k = mapFind t k := by
  induction t with
  | nil => rfl
  | cons e t ih =>
    obtain ⟨j, v⟩ := e
    by_cases hj : j = h
    · subst hj
      have hjk : ¬ j = k := fun e => hne e.symm
      simpa [mapErase, List.filter_cons, mapFind, hjk] using ih
    · by_cases hjk : j = k
      · subst hjk
        simp [mapErase, List.filter_cons, hj, mapFind]
      · simpa [mapErase, List.filter_cons, hj, mapFind, hjk] using ih

theorem mapFind_mapSet_self (t : PortMap) (h : Int) (ctx : PortContext) :
    mapFind (mapSet t h ctx) h = some ctx := by
  induction t with
  | nil => simp [mapSet, mapFind]
  | cons e t ih =>
    obtain ⟨j, v⟩ := e
    by_cases hj : j = h
    · simp [mapSet, mapFind, hj]
    · simpa [mapSet, mapFind, hj] using ih

theorem mapFind_mapSet_ne (t : PortMap) (h k : Int) (ctx : PortContext) (hne : k ≠ h) :
    mapFind (mapSet t h ctx) k = mapFind t k := by
  induction t with
  | nil =>
    have : ¬ h = k := fun e => hne e.symm
    simp [mapSet, mapFind, this]
  | cons e t ih =>
    obtain ⟨j, v⟩ := e
    by_cases hj : j = h
    · subst hj
      have hjk : ¬ j = k := fun e => hne e.symm
      simp [mapSet, mapFind, hjk]
    · by_cases hjk : j = k
      · subst hjk
        simp [mapSet, mapFind, hj]
      · simpa [mapSet, mapFind, hj, hjk] using ih

/-! ## ClosePort -/

theorem ClosePort_table (m : SerialPortManager) (h : Int) :
    mapFind (ClosePort m h).m_ports h = none ∧
      ∀ k, k ≠ h → mapFind (ClosePort m h).m_ports k = mapFind m.m_ports k := by
  cases hf : mapFind m.m_ports h with
  | none =>
    have hc : ClosePort m h = m := by simp [ClosePort, hf]
    rw [hc]
    exact ⟨hf, fun k _ => rfl⟩
  | some ctx =>
    simp only [ClosePort, hf]
    exact ⟨mapFind_mapErase_self _ _, fun k hk => mapFind_mapErase_ne _ _ _ hk⟩

theorem ClosePort_nextId (m : SerialPortManager) (h : Int) :
    (ClosePort m h).m_nextId = m.m_nextId := by
  unfold ClosePort
  split <;> rfl


/-- C3. `ClosePort` twice on one handle leaves the state of a single
`ClosePort`; on a handle absent from the table it changes nothing at all (table,
counter, OS trace and log); on a present handle the entry of that handle is
gone afterwards, every other handle keeps its entry, the counter is untouched,
and exactly one `CloseHandle` and one `Log` call are made. -/
theorem ClosePort_idempotent (m : SerialPortManager) (h : Int) :
    ClosePort (ClosePort m h) h = ClosePort m h ∧
      (mapFind m.m_ports h = none → ClosePort m h = m) ∧
      mapFind (ClosePort m h).m_ports h = none ∧
      (∀ k, k ≠ h → mapFind (ClosePort m h).m_ports k = mapFind m.m_ports k) ∧
      (ClosePort m h).m_nextId = m.m_nextId ∧
      (∀ ctx, mapFind m.m_ports h = some ctx →
        (ClosePort m h).os = m.os ++ [OsCall.CloseHandle ctx.hComm] ∧
        (ClosePort m h).logger =
          m.logger.Log LogLevel.INFO MODULE_NAME ("Close " ++ ctx.portName)) := by
  cases hf : mapFind m.m_ports h with
  | none =>
    have hc : ClosePort m h = m := by simp [ClosePort, hf]
    refine ⟨(by rw [hc, hc]), fun _ => hc, (by rw [hc, hf]), fun k _ => (by rw [hc]),
      (by rw [hc]), fun ctx hctx => (by cases hctx)⟩
  | some ctx =>
    have hc : ClosePort m h = { m with
        m_ports := mapErase m.m_ports h
        os := m.os ++ [OsCall.CloseHandle ctx.hComm]
        logger := m.logger.Log LogLevel.INFO MODULE_NAME ("Close " ++ ctx.portName) } := by
      simp [ClosePort, hf]
    have hgone : mapFind (ClosePort m h).m_ports h = none := by
      rw [hc]; exact mapFind_mapErase_self _ _
    refine ⟨?_, fun hn => (by cases hn), hgone, fun k hk => ?_, (by rw [hc]), fun c hctx => ?_⟩
    · generalize ClosePort m h = m1 at hgone
      simp [ClosePort, hgone]
    · rw [hc]; exact mapFind_mapErase_ne _ _ _ hk
    · cases hctx
      rw [hc]
      exact ⟨rfl, rfl⟩

/-! ## Frame lemmas: what Send and Receive leave alone -/

theorem Send_frame (m : SerialPortManager) (h : Int) (data : List Byte) (env : SendEnv) :
    (Send m h data env).2.m_ports = m.m_ports ∧
      (Send m h data env).2.m_nextId = m.m_nextId := by
  unfold Send
  cases mapFind m.m_ports h with
  | none => exact ⟨rfl, rfl⟩
  | some ctx =>
    dsimp only
    by_cases ha : (!activeAt ctx env.closedAt 0) = true
    · rw [if_pos ha]; exact ⟨rfl, rfl⟩
    · rw [if_neg ha]
      by_cases hw : (!env.ok || toDWORD env.wrote != toSizeT data.length) = true
      · rw [if_pos hw]; exact ⟨rfl, rfl⟩
      · rw [if_neg hw]; exact ⟨rfl, rfl⟩

theorem Receive_frame (m : SerialPortManager) (h : Int) (out : List Byte) (env : RecvEnv)
    (fuel : Nat) (ret : Int) (out1 : List Byte) (m1 : SerialPortManager)
    (hr : Receive m h out env fuel = some (ret, out1, m1)) :
    m1.m_ports = m.m_ports ∧ m1.m_nextId = m.m_nextId := by
  unfold Receive at hr
  cases hf : mapFind m.m_ports h with
  | none =>
    rw [hf] at hr
    cases hr; exact ⟨rfl, rfl⟩
  | some ctx =>
    rw [hf] at hr
    dsimp only at hr
    by_cases ha : (!activeAt ctx env.closedAt 0) = true
    · rw [if_pos ha] at hr
      cases hr; exact ⟨rfl, rfl⟩
    · rw [if_neg ha] at hr
      cases hl : recvLoop ctx env fuel 0 [] (m.os ++ [OsCall.GetTickCount]) with
      | none => simp only [hl] at hr; cases hr
      | some res =>
        obtain ⟨bytes, os1⟩ := res
        simp only [hl, Option.some.injEq, Prod.mk.injEq] at hr
        obtain ⟨-, -, rfl⟩ := hr
        exact ⟨rfl, rfl⟩

theorem Send_absent (m : SerialPortManager) (h : Int) (data : List Byte) (env : SendEnv)
    (hf : mapFind m.m_ports h = none) : Send m h data env = (false, m) := by
  simp [Send, hf]

theorem Receive_absent (m : SerialPortManager) (h : Int) (out : List Byte) (env : RecvEnv)
    (fuel : Nat) (hf : mapFind m.m_ports h = none) :
    Receive m h out env fuel = some (-1, out, m) := by
  simp [Receive, hf]

/-! ## Call sequences: the table holds outstanding handles only -/

theorem step_TableOutstanding (m m1 : SerialPortManager) (hist : List Event) (c : Call)
    (e : Event) (hinv : TableOutstanding m hist) (hs : step m c = some (m1, e)) :
    TableOutstanding m1 (e :: hist) := by
  intro h hh
  cases c with
  | OpenPort portName baudRate env =>
    simp only [step, Option.some.injEq, Prod.mk.injEq] at hs
    obtain ⟨rfl, rfl⟩ := hs
    cases hfile : env.hFile with
    | none =>
      simp only [OpenPort, hfile] at hh
      simpa [hfile, outstanding] using hinv h hh
    | some hnd =>
      simp only [OpenPort, hfile] at hh
      by_cases hk : h = m.m_nextId
      · simp [hfile, OpenPort, outstanding, hk]
      · rw [mapFind_mapSet_ne _ _ _ _ hk] at hh
        have hk2 : ¬ m.m_nextId = h := fun e => hk e.symm
        simpa [hfile, OpenPort, outstanding, hk2] using hinv h hh
  | ClosePort handleId =>
    simp only [step, Option.some.injEq, Prod.mk.injEq] at hs
    obtain ⟨rfl, rfl⟩ := hs
    have hci := ClosePort_table m handleId
    by_cases hk : h = handleId
    · subst hk
      exact absurd hci.1 hh
    · rw [hci.2 h hk] at hh
      have hk2 : ¬ handleId = h := fun e => hk e.symm
      simpa [outstanding, hk2] using hinv h hh
  | Send handleId data env =>
    simp only [step, Option.some.injEq, Prod.mk.injEq] at hs
    obtain ⟨rfl, rfl⟩ := hs
    rw [(Send_frame m handleId data env).1] at hh
    simpa [outstanding] using hinv h hh
  | Receive handleId outData env fuel =>
    simp only [step] at hs
    cases hr : Receive m handleId outData env fuel with
    | none => simp [hr] at hs
    | some res =>
      obtain ⟨ret, out1, m2⟩ := res
      simp only [hr, Option.some.injEq, Prod.mk.injEq] at hs
      obtain ⟨rfl, rfl⟩ := hs
      rw [(Receive_frame m handleId outData env fuel ret out1 m2 hr).1] at hh
      simpa [outstanding] using hinv h hh

theorem run_TableOutstanding (calls : List Call) (m m1 : SerialPortManager)
    (hist hist1 : List Event) (hinv : TableOutstanding m hist)
    (hrun : run m hist calls = some (m1, hist1)) : TableOutstanding m1 hist1 := by
  induction calls generalizing m hist with
  | nil =>
    simp only [run, Option.some.injEq, Prod.mk.injEq] at hrun
    obtain ⟨rfl, rfl⟩ := hrun
    exact hinv
  | cons c cs ih =>
    simp only [run] at hrun
    cases hs : step m c with
    | none => simp [hs] at hrun
    | some res =>
      obtain ⟨m2, e⟩ := res
      simp only [hs] at hrun
      exact ih m2 (e :: hist) (step_TableOutstanding m m2 hist c e hinv hs) hrun

/-- C1. After any sequence of calls on a fresh manager, for a handle that no
successful `OpenPort` returned, or that was passed to `ClosePort` since it was
last returned, `Send` returns `false` and `Receive` returns `-1`, and both leave
the whole state (table, counter, log, OS trace) and `outData` as they were,
for every payload, buffer, environment and fuel. -/
theorem unknown_handle_fails (lvl : LogLevel) (calls : List Call) (m : SerialPortManager)
    (hist : List Event) (h : Int)
    (hrun : run (SerialPortManager.init lvl) [] calls = some (m, hist))
    (hout : outstanding hist h = false) :
    (∀ data env, Send m h data env = (false, m)) ∧
      (∀ out env fuel, Receive m h out env fuel = some (-1, out, m)) := by
  have hinit : TableOutstanding (SerialPortManager.init lvl) [] := by
    intro k hk
    exact absurd rfl hk
  have hinv := run_TableOutstanding calls _ m [] hist hinit hrun
  have hf : mapFind m.m_ports h = none := by
    by_contra hne
    have := hinv h hne
    rw [hout] at this
    cases this
  exact ⟨fun data env => Send_absent m h data env hf,
    fun out env fuel => Receive_absent m h out env fuel hf⟩

/-! ## The handle counter -/

theorem toInt32_succ (x : Int) : toInt32 (toInt32 x + 1) = toInt32 (x + 1) := by
  unfold toInt32
  omega

theorem toInt32_small (x : Int) (hlo : -2147483648 ≤ x) (hhi : x < 2147483648) :
    toInt32 x = x := by
  unfold toInt32
  omega

theorem step_CounterInv (m m1 : SerialPortManager) (hist : List Event) (c : Call)
    (e : Event) (hinv : CounterInv m hist) (hs : step m c = some (m1, e)) :
    CounterInv m1 (e :: hist) := by
  cases c with
  | OpenPort portName baudRate env =>
    simp only [step, Option.some.injEq, Prod.mk.injEq] at hs
    obtain ⟨rfl, rfl⟩ := hs
    cases hfile : env.hFile with
    | none =>
      simpa [OpenPort, hfile, openedHandles, CounterInv] using hinv
    | some hnd =>
      obtain ⟨hid, hlist⟩ := hinv
      have hev : openedHandles ((if (some hnd : Option Nat).isSome = true
          then Event.opened (OpenPort m portName baudRate env).1
          else Event.openFailed) :: hist) = m.m_nextId :: openedHandles hist := by
        simp [OpenPort, hfile, openedHandles]
      have hnext : (OpenPort m portName baudRate env).2.m_nextId =
          toInt32 (m.m_nextId + 1) := by
        simp [OpenPort, hfile]
      refine ⟨?_, ?_⟩
      · rw [hev, hnext, hid, toInt32_succ, List.length_cons]
        congr 1
      · rw [hev, List.length_cons]
        intro hlt
        have hlt2 : (openedHandles hist).length < 2 ^ 31 := by omega
        have hsmall : m.m_nextId = (((openedHandles hist).length + 1 : Nat) : Int) := by
          rw [hid, toInt32_small] <;> push_cast <;> omega
        rw [descHandles, ← hlist hlt2, hsmall]
  | ClosePort handleId =>
    simp only [step, Option.some.injEq, Prod.mk.injEq] at hs
    obtain ⟨rfl, rfl⟩ := hs
    simpa [CounterInv, openedHandles, ClosePort_nextId] using hinv
  | Send handleId data env =>
    simp only [step, Option.some.injEq, Prod.mk.injEq] at hs
    obtain ⟨rfl, rfl⟩ := hs
    simpa [CounterInv, openedHandles, (Send_frame m handleId data env).2] using hinv
  | Receive handleId outData env fuel =>
    simp only [step] at hs
    cases hr : Receive m handleId outData env fuel with
    | none => simp [hr] at hs
    | some res =>
      obtain ⟨ret, out1, m2⟩ := res
      simp only [hr, Option.some.injEq, Prod.mk.injEq] at hs
      obtain ⟨rfl, rfl⟩ := hs
      simpa [CounterInv, openedHandles,
        (Receive_frame m handleId outData env fuel ret out1 m2 hr).2] using hinv

theorem run_CounterInv (calls : List Call) (m m1 : SerialPortManager)
    (hist hist1 : List Event) (hinv : CounterInv m hist)
    (hrun : run m hist calls = some (m1, hist1)) : CounterInv m1 hist1 := by
  induction calls generalizing m hist with
  | nil =>
    simp only [run, Option.some.injEq, Prod.mk.injEq] at hrun
    obtain ⟨rfl, rfl⟩ := hrun
    exact hinv
  | cons c cs ih =>
    simp only [run] at hrun
    cases hs : step m c with
    | none => simp [hs] at hrun
    | some res =>
      obtain ⟨m2, e⟩ := res
      simp only [hs] at hrun
      exact ih m2 (e :: hist) (step_CounterInv m m2 hist c e hinv hs) hrun

theorem CounterInv_init (lvl : LogLevel) : CounterInv (SerialPortManager.init lvl) [] := by
  refine ⟨?_, fun _ => rfl⟩
  simp [SerialPortManager.init, openedHandles, toInt32]

theorem descHandles_bounds (k : Nat) : ∀ h ∈ descHandles k, 0 < h ∧ h ≤ (k : Int) := by
  induction k with
  | zero => intro h hh; cases hh
  | succ k ih =>
    intro h hh
    rw [descHandles, List.mem_cons] at hh
    rcases hh with rfl | hh
    · constructor <;> push_cast <;> omega
    · have := ih h hh
      constructor
      · exact this.1
      · push_cast; omega

theorem descHandles_pairwise (k : Nat) : List.Pairwise (fun a b => a > b) (descHandles k) := by
  induction k with
  | zero => exact List.Pairwise.nil
  | succ k ih =>
    rw [descHandles, List.pairwise_cons]
    refine ⟨fun h hh => ?_, ih⟩
    have := (descHandles_bounds k h hh).2
    push_cast
    omega

/-- C2, amended. After any sequence of calls on a fresh manager in which fewer
than `2 ^ 31` `OpenPort` calls succeeded, the handles those calls returned are
`1, 2, ..., k` in order: each is positive and strictly greater than every
handle returned earlier (the list is newest first). -/
theorem handles_increasing (lvl : LogLevel) (calls : List Call) (m : SerialPortManager)
    (hist : List Event)
    (hrun : run (SerialPortManager.init lvl) [] calls = some (m, hist))
    (hfew : (openedHandles hist).length < 2 ^ 31) :
    openedHandles hist = descHandles (openedHandles hist).length ∧
      (∀ h ∈ openedHandles hist, 0 < h) ∧
      List.Pairwise (fun later earlier => later > earlier) (openedHandles hist) := by
  have hinv := run_CounterInv calls _ m [] hist (CounterInv_init lvl) hrun
  have heq := hinv.2 hfew
  refine ⟨heq, ?_, ?_⟩
  · rw [heq]
    exact fun h hh => (descHandles_bounds _ h hh).1
  · rw [heq]
    exact descHandles_pairwise _

theorem run_append (a b : List Call) (m : SerialPortManager) (hist : List Event) :
    run m hist (a ++ b) =
      match run m hist a with
      | none => none
      | some (m1, hist1) => run m1 hist1 b := by
  induction a generalizing m hist with
  | nil => rfl
  | cons c cs ih =>
    simp only [List.cons_append, run]
    cases step m c with
    | none => rfl
    | some res => exact ih res.1 (res.2 :: hist)

theorem run_openCloseRounds (lvl : LogLevel) (n : Nat) :
    ∃ m hist, run (SerialPortManager.init lvl) [] (openCloseRounds n) = some (m, hist) ∧
      (openedHandles hist).length = n := by
  induction n with
  | zero => exact ⟨_, _, rfl, rfl⟩
  | succ n ih =>
    obtain ⟨m, hist, hrun, hlen⟩ := ih
    refine ⟨ClosePort (OpenPort m "COM7" 9600 openOk).2 ((n + 1 : Nat) : Int),
      Event.closed ((n + 1 : Nat) : Int) :: Event.opened m.m_nextId :: hist, ?_, ?_⟩
    · rw [openCloseRounds, run_append, hrun]
      simp [run, step, openOk, OpenPort]
    · simp [openedHandles, hlen]

/-- C2, as stated, fails: after `2 ^ 31 - 1` rounds of opening `COM7` and
closing it again, the next successful `OpenPort` returns `-2147483648`, which
is neither positive nor greater than the handles returned before it. -/
theorem handle_counter_wraps :
    ∃ m hist, run (SerialPortManager.init LogLevel.DEBUG) []
        (openCloseRounds 2147483647 ++ [Call.OpenPort "COM7" 9600 openOk]) = some (m, hist) ∧
      hist.head? = some (Event.opened (-2147483648)) ∧
      (2147483647 : Int) ∈ openedHandles hist := by
  obtain ⟨m, hist, hrun, hlen⟩ := run_openCloseRounds LogLevel.DEBUG 2147483647
  have hinv := run_CounterInv _ _ m [] hist (CounterInv_init LogLevel.DEBUG) hrun
  have hid : m.m_nextId = -2147483648 := by
    rw [hinv.1, hlen]
    unfold toInt32
    omega
  have hlist := hinv.2 (by rw [hlen]; norm_num)
  refine ⟨(OpenPort m "COM7" 9600 openOk).2, Event.opened m.m_nextId :: hist, ?_, ?_, ?_⟩
  · rw [run_append, hrun]
    simp [run, step, openOk, OpenPort]
  · rw [hid]; rfl
  · rw [openedHandles, hlist, hlen, List.mem_cons]
    right
    show (2147483647 : Int) ∈ descHandles (2147483646 + 1)
    rw [descHandles]
    exact List.mem_cons_self _ _

/-! ## OpenPort -/

/-- C7, as stated, fails: with `COM7` opened (OS handle 7) and all three
configuration calls failing, `OpenPort` on a fresh manager returns handle `1`
instead of `-1`, advances the counter to `2`, registers the session and writes
no error record. -/
theorem OpenPort_ignores_config_failure :
    OpenPort (SerialPortManager.init LogLevel.DEBUG) "COM7" 9600
        { hFile := some 7, getCommState := false, setCommState := false,
          setCommTimeouts := false, lastError := "Access is denied." } =
      (1, { m_ports := [(1, { hComm := 7, portName := "COM7", active := true })]
            m_nextId := 2
            logger := ⟨LogLevel.DEBUG,
              [⟨LogLevel.INFO, "SerialPort", "Open ok COM7 baud=9600"⟩]⟩
            os := [OsCall.CreateFileA "\\\\.\\COM7", OsCall.GetCommState 7,
              OsCall.SetCommState 7 9600, OsCall.SetCommTimeouts 7 10 20] }) := by
  decide

/-- C7, amended. When `CreateFileA` yields `INVALID_HANDLE_VALUE`, `OpenPort`
returns `-1`, writes one `ERR` record naming the port and the platform error,
and leaves the counter and the table as they were.  When the device opens,
the results of the three configuration calls have no influence: the call
returns the counter's value as the handle whatever they are. -/
theorem OpenPort_failure (m : SerialPortManager) (portName : String) (baudRate : Int)
    (env : OpenEnv) :
    (env.hFile = none →
      (OpenPort m portName baudRate env).1 = -1 ∧
      (OpenPort m portName baudRate env).2.m_nextId = m.m_nextId ∧
      (OpenPort m portName baudRate env).2.m_ports = m.m_ports ∧
      (OpenPort m portName baudRate env).2.logger.records = m.logger.records ++
        [⟨LogLevel.ERR, MODULE_NAME, "Open fail " ++ portName ++ " err=" ++ env.lastError⟩]) ∧
    (∀ hnd, env.hFile = some hnd → ∀ g s t : Bool,
      OpenPort m portName baudRate
          { env with getCommState := g, setCommState := s, setCommTimeouts := t } =
        OpenPort m portName baudRate env ∧
      (OpenPort m portName baudRate env).1 = m.m_nextId ∧
      mapFind (OpenPort m portName baudRate env).2.m_ports m.m_nextId =
        some { hComm := hnd, portName := portName, active := true }) := by
  constructor
  · intro hfile
    have hlvl : ¬ LogLevel.ERR.toNat < m.logger.m_level.toNat := by
      cases m.logger.m_level <;> simp [LogLevel.toNat]
    simp [OpenPort, hfile, Logger.Log, hlvl]
  · intro hnd hfile g s t
    refine ⟨?_, ?_, ?_⟩
    · simp [OpenPort, hfile]
    · simp [OpenPort, hfile]
    · simp only [OpenPort, hfile]
      exact mapFind_mapSet_self _ _ _

/-! ## Send -/

theorem ERR_passes (lg : Logger) (module msg : String) :
    (lg.Log LogLevel.ERR module msg).records = lg.records ++ [⟨LogLevel.ERR, module, msg⟩] := by
  have hlvl : ¬ LogLevel.ERR.toNat < lg.m_level.toNat := by
    cases lg.m_level <;> simp [LogLevel.toNat]
  simp [Logger.Log, hlvl]

theorem Send_outcome (m : SerialPortManager) (h : Int) (ctx : PortContext) (data : List Byte)
    (env : SendEnv) (hf : mapFind m.m_ports h = some ctx)
    (hact : activeAt ctx env.closedAt 0 = true) (hL : data.length < 2 ^ 64) :
    ((Send m h data env).1 = true ↔ (env.ok = true ∧ toDWORD env.wrote = data.length)) ∧
      ((Send m h data env).1 = false →
        (Send m h data env).2.logger.records = m.logger.records ++
          [⟨LogLevel.ERR, MODULE_NAME, "Send fail " ++ ctx.portName ++ " HEX=" ++
            ToHexString data ++ " err=" ++ env.lastError⟩]) ∧
      (Send m h data env).2.os = m.os ++
        [OsCall.WriteFile ctx.hComm data (toDWORD data.length), OsCall.Sleep 10] := by
  have hsz : toSizeT data.length = data.length := Nat.mod_eq_of_lt hL
  by_cases hw : (!env.ok || toDWORD env.wrote != toSizeT data.length) = true
  · have hs : Send m h data env = (false, { m with
        os := m.os ++ [OsCall.WriteFile ctx.hComm data (toDWORD data.length), OsCall.Sleep 10]
        logger := m.logger.Log LogLevel.ERR MODULE_NAME
          ("Send fail " ++ ctx.portName ++ " HEX=" ++ ToHexString data ++
            " err=" ++ env.lastError) }) := by
      simp only [Send, hf, hact, Bool.not_true, Bool.false_eq_true, if_false, hw, if_true]
    rw [hs]
    refine ⟨?_, fun _ => ERR_passes _ _ _, rfl⟩
    rw [hsz] at hw
    constructor
    · intro hc; cases hc
    · rintro ⟨hok, hwr⟩
      simp [hok, hwr] at hw
  · have hs : Send m h data env = (true, { m with
        os := m.os ++ [OsCall.WriteFile ctx.hComm data (toDWORD data.length), OsCall.Sleep 10]
        logger := m.logger.LogHex LogLevel.DEBUG MODULE_NAME "TX" data }) := by
      simp only [Send, hf, hact, Bool.not_true, Bool.false_eq_true, if_false, hw]
    rw [hs]
    refine ⟨?_, fun hc => (by cases hc), rfl⟩
    rw [hsz] at hw
    constructor
    · intro _
      cases hok : env.ok
      · simp [hok] at hw
      · simpa [hok] using hw
    · intro _; rfl

/-! ## Receive: the polling loop -/

theorem bytesFrom_succ (env : RecvEnv) (k d : Nat) :
    bytesFrom env k (d + 1) = bytesFrom env k d ++
      (if gotByte (env.reads (k + d)) then [(env.reads (k + d)).b] else []) := by
  induction d generalizing k with
  | zero => simp [bytesFrom]
  | succ d ih =>
    rw [bytesFrom, ih (k + 1), bytesFrom, List.append_assoc]
    have : k + 1 + d = k + (d + 1) := by omega
    rw [this]

theorem receivedBytes_eq (env : RecvEnv) (n : Nat) : receivedBytes env n = bytesFrom env 0 n := by
  induction n with
  | zero => rfl
  | succ n ih =>
    rw [bytesFrom_succ, ← ih, receivedBytes, List.range_succ, List.filterMap_append]
    simp only [Nat.zero_add, receivedBytes]
    congr 1
    by_cases hg : gotByte (env.reads n) = true <;> simp [hg]

/-- The loop leaves by the tick check after attempt `k + d` when no earlier
check has expired and the flag is seen `true` up to there. -/
theorem recvLoop_expires (ctx : PortContext) (env : RecvEnv) (d : Nat) :
    ∀ (k : Nat) (out : List Byte) (os : List OsCall) (fuel : Nat),
      (∀ j, j < d → ¬ expired env (k + j)) → expired env (k + d) →
      (∀ j, j ≤ d → activeAt ctx env.closedAt (k + j + 1) = true) → d < fuel →
      ∃ os1, recvLoop ctx env fuel k out os = some (out ++ bytesFrom env k (d + 1), os1) := by
  induction d with
  | zero =>
    intro k out os fuel _ hexp hact hfuel
    obtain ⟨f, rfl⟩ : ∃ f, fuel = f + 1 := ⟨fuel - 1, by omega⟩
    have ha := hact 0 (Nat.le_refl 0)
    have hexp2 : dwordSub (env.ticks k) env.start > 20 := hexp
    simp only [Nat.add_zero] at ha
    by_cases hg : gotByte (env.reads k) = true <;>
      simp [recvLoop, ha, hexp2, bytesFrom, hg]
  | succ d ih =>
    intro k out os fuel hno hexp hact hfuel
    obtain ⟨f, rfl⟩ : ∃ f, fuel = f + 1 := ⟨fuel - 1, by omega⟩
    have ha := hact 0 (Nat.zero_le _)
    have hn0 : ¬ dwordSub (env.ticks k) env.start > 20 := hno 0 (Nat.succ_pos d)
    simp only [Nat.add_zero] at ha
    have hno1 : ∀ j, j < d → ¬ expired env (k + 1 + j) := fun j hj => by
      have := hno (j + 1) (by omega)
      rwa [show k + (j + 1) = k + 1 + j by omega] at this
    have hexp1 : expired env (k + 1 + d) := by
      rwa [show k + (d + 1) = k + 1 + d by omega] at hexp
    have hact1 : ∀ j, j ≤ d → activeAt ctx env.closedAt (k + 1 + j + 1) = true :=
      fun j hj => by
        have := hact (j + 1) (by omega)
        rwa [show k + (j + 1) + 1 = k + 1 + j + 1 by omega] at this
    rw [recvLoop]
    simp only [ha, Bool.not_true, Bool.false_eq_true, if_false, hn0]
    obtain ⟨os1, h1⟩ := ih (k + 1)
      (if gotByte (env.reads k) then out ++ [(env.reads k).b] else out)
      (os ++ [OsCall.ReadFile ctx.hComm 1] ++
        (if gotByte (env.reads k) then [OsCall.Sleep 10] else []) ++ [OsCall.GetTickCount])
      f hno1 hexp1 hact1 (by omega)
    refine ⟨os1, ?_⟩
    have hb : bytesFrom env k (d + 1 + 1) =
        (if gotByte (env.reads k) then [(env.reads k).b] else []) ++
          bytesFrom env (k + 1) (d + 1) := rfl
    rw [h1, hb]
    by_cases hg : gotByte (env.reads k) = true <;> simp [hg]

/-- The loop leaves by its condition before attempt `k + d` when the flag is
first seen `false` there and no earlier check has expired. -/
theorem recvLoop_closed (ctx : PortContext) (env : RecvEnv) (d : Nat) :
    ∀ (k : Nat) (out : List Byte) (os : List OsCall) (fuel : Nat),
      (∀ j, j < d → ¬ expired env (k + j)) →
      (∀ j, j < d → activeAt ctx env.closedAt (k + j + 1) = true) →
      activeAt ctx env.closedAt (k + d + 1) = false → d < fuel →
      ∃ os1, recvLoop ctx env fuel k out os = some (out ++ bytesFrom env k d, os1) := by
  induction d with
  | zero =>
    intro k out os fuel _ _ hoff hfuel
    obtain ⟨f, rfl⟩ : ∃ f, fuel = f + 1 := ⟨fuel - 1, by omega⟩
    simp only [Nat.add_zero] at hoff
    simp [recvLoop, hoff, bytesFrom]
  | succ d ih =>
    intro k out os fuel hno hact hoff hfuel
    obtain ⟨f, rfl⟩ : ∃ f, fuel = f + 1 := ⟨fuel - 1, by omega⟩
    have ha := hact 0 (Nat.succ_pos d)
    have hn0 : ¬ dwordSub (env.ticks k) env.start > 20 := hno 0 (Nat.succ_pos d)
    simp only [Nat.add_zero] at ha
    have hno1 : ∀ j, j < d → ¬ expired env (k + 1 + j) := fun j hj => by
      have := hno (j + 1) (by omega)
      rwa [show k + (j + 1) = k + 1 + j by omega] at this
    have hact1 : ∀ j, j < d → activeAt ctx env.closedAt (k + 1 + j + 1) = true :=
      fun j hj => by
        have := hact (j + 1) (by omega)
        rwa [show k + (j + 1) + 1 = k + 1 + j + 1 by omega] at this
    have hoff1 : activeAt ctx env.closedAt (k + 1 + d + 1) = false := by
      rwa [show k + (d + 1) + 1 = k + 1 + d + 1 by omega] at hoff
    rw [recvLoop]
    simp only [ha, Bool.not_true, Bool.false_eq_true, if_false, hn0]
    obtain ⟨os1, h1⟩ := ih (k + 1)
      (if gotByte (env.reads k) then out ++ [(env.reads k).b] else out)
      (os ++ [OsCall.ReadFile ctx.hComm 1] ++
        (if gotByte (env.reads k) then [OsCall.Sleep 10] else []) ++ [OsCall.GetTickCount])
      f hno1 hact1 hoff1 (by omega)
    refine ⟨os1, ?_⟩
    have hb : bytesFrom env k (d + 1) =
        (if gotByte (env.reads k) then [(env.reads k).b] else []) ++
          bytesFrom env (k + 1) d := rfl
    rw [h1, hb]
    by_cases hg : gotByte (env.reads k) = true <;> simp [hg]

/-- C4. For a registered handle whose session is live at the check, and a
payload whose length `L` fits `size_t`, `Send` returns `true` exactly when
`WriteFile` reported success and the `DWORD` count it reported equals `L`; in
every other case it returns `false` and writes one `ERR` record with the port
name and the hex dump of the whole payload.  Either way it makes exactly one
`WriteFile` call, for the whole payload with the length reduced to `DWORD`,
followed by the 10 ms pause. -/
theorem Send_live (m : SerialPortManager) (h : Int) (ctx : PortContext) (data : List Byte)
    (env : SendEnv) (hf : mapFind m.m_ports h = some ctx)
    (hact : activeAt ctx env.closedAt 0 = true) (hL : data.length < 2 ^ 64) :
    ((Send m h data env).1 = true ↔ (env.ok = true ∧ toDWORD env.wrote = data.length)) ∧
      ((Send m h data env).1 = false →
        (Send m h data env).2.logger.records = m.logger.records ++
          [⟨LogLevel.ERR, MODULE_NAME, "Send fail " ++ ctx.portName ++ " HEX=" ++
            ToHexString data ++ " err=" ++ env.lastError⟩]) ∧
      (Send m h data env).2.os = m.os ++
        [OsCall.WriteFile ctx.hComm data (toDWORD data.length), OsCall.Sleep 10] :=
  Send_outcome m h ctx data env hf hact hL

/-! ## Receive -/

theorem WARN_passes (lg : Logger) (module msg : String) (hlvl : lg.m_level ≠ LogLevel.ERR) :
    (lg.Log LogLevel.WARN module msg).records =
      lg.records ++ [⟨LogLevel.WARN, module, msg⟩] := by
  have hnot : ¬ LogLevel.WARN.toNat < lg.m_level.toNat := by
    cases hm : lg.m_level <;> simp_all [LogLevel.toNat]
  simp [Logger.Log, hnot]

theorem toInt32_length (n : Nat) (hn : n < 2 ^ 31) :
    toInt32 ((toSizeT n : Nat) : Int) = (n : Int) := by
  have h1 : toSizeT n = n := Nat.mod_eq_of_lt (by omega)
  rw [h1, toInt32_small] <;> omega

/-- What `Receive` returns once its loop has left with `bytes`. -/
theorem Receive_of_loop (m : SerialPortManager) (h : Int) (ctx : PortContext)
    (out bytes : List Byte) (env : RecvEnv) (fuel : Nat) (os1 : List OsCall)
    (hf : mapFind m.m_ports h = some ctx) (hact : activeAt ctx env.closedAt 0 = true)
    (hloop : recvLoop ctx env fuel 0 [] (m.os ++ [OsCall.GetTickCount]) = some (bytes, os1)) :
    Receive m h out env fuel = some (toInt32 ((toSizeT bytes.length : Nat) : Int), bytes,
      { m with
        os := os1
        logger := if bytes = []
          then m.logger.Log LogLevel.WARN MODULE_NAME ("RX timeout " ++ ctx.portName)
          else m.logger.LogHex LogLevel.DEBUG MODULE_NAME "RX" bytes }) := by
  unfold Receive
  simp only [hf, hact, Bool.not_true, Bool.false_eq_true, if_false, hloop]
  cases bytes <;> simp

/-- C5. For a registered handle whose session stays live through the call, when
the check after attempt `n` is the first to expire, `Receive` returns (given
fuel for `n + 1` attempts), drops what `outData` held and leaves in it exactly
the bytes of the attempts `0, ..., n` that returned one byte, in read order.  The
value returned is that buffer's length converted to `int`, which is the length
itself below `2 ^ 31`.  With no byte read it returns `0`, not `-1`, and hands
the `RX timeout` warning to the logger at level `WARN` (written unless the
threshold is `ERR`); with bytes it logs their hex dump.  The table is unchanged. -/
theorem Receive_collects (m : SerialPortManager) (h : Int) (ctx : PortContext)
    (out : List Byte) (env : RecvEnv) (n fuel : Nat)
    (hf : mapFind m.m_ports h = some ctx) (hlive : ctx.active = true)
    (hopen : env.closedAt = none)
    (hrun : ∀ j, j < n → ¬ expired env j) (hstop : expired env n) (hfuel : n < fuel) :
    ∃ ret m1, Receive m h out env fuel = some (ret, receivedBytes env (n + 1), m1) ∧
      ret = toInt32 ((toSizeT (receivedBytes env (n + 1)).length : Nat) : Int) ∧
      ((receivedBytes env (n + 1)).length < 2 ^ 31 →
        ret = ((receivedBytes env (n + 1)).length : Int)) ∧
      (receivedBytes env (n + 1) = [] →
        ret = 0 ∧
        m1.logger = m.logger.Log LogLevel.WARN MODULE_NAME ("RX timeout " ++ ctx.portName) ∧
        (m.logger.m_level ≠ LogLevel.ERR → m1.logger.records = m.logger.records ++
          [⟨LogLevel.WARN, MODULE_NAME, "RX timeout " ++ ctx.portName⟩])) ∧
      (receivedBytes env (n + 1) ≠ [] →
        m1.logger = m.logger.LogHex LogLevel.DEBUG MODULE_NAME "RX"
          (receivedBytes env (n + 1))) ∧
      m1.m_ports = m.m_ports ∧ m1.m_nextId = m.m_nextId := by
  have hact : ∀ k, activeAt ctx env.closedAt k = true := by
    intro k; simp [activeAt, hlive, hopen]
  obtain ⟨os1, hloop⟩ := recvLoop_expires ctx env n 0 [] (m.os ++ [OsCall.GetTickCount]) fuel
    (fun j hj => by simpa using hrun j hj) (by simpa using hstop)
    (fun j _ => hact _) hfuel
  rw [List.nil_append, ← receivedBytes_eq] at hloop
  have hrec := Receive_of_loop m h ctx out _ env fuel os1 hf (hact 0) hloop
  refine ⟨_, _, hrec, rfl, fun hlen => toInt32_length _ hlen, fun hnil => ?_,
    fun hne => ?_, rfl, rfl⟩
  · refine ⟨?_, ?_, fun hlvl => ?_⟩
    · rw [hnil]; rfl
    · simp [hnil]
    · simp only [hnil, if_true]
      exact WARN_passes _ _ _ hlvl
  · simp [hne]

/-! ## Close while an operation is in flight -/

set_option maxRecDepth 100000 in
/-- C6, as stated, fails.  On handle 1 of `com7Open`, with the flag turning
`false` right after the entry check, `Receive` returns `0` and not `-1`; with
the flag turning `false` after one byte was read it returns the partial count
`1`; and `Send` whose write completes in full returns `true`. -/
theorem closed_in_flight_not_sentinel :
    (Receive com7Open 1 [] (closingEnv 1) 5).map (fun r => (r.1, r.2.1)) = some (0, []) ∧
      (Receive com7Open 1 [] (closingEnv 2) 5).map (fun r => (r.1, r.2.1)) =
        some (1, [0x55]) ∧
      (Send com7Open 1 [1, 2] closedWrite).1 = true := by
  decide

/-- C6, amended. For a registered session whose flag is `true` at the entry
check and turns `false` afterwards: `Send` does not read the flag again, so it
behaves as if nothing had happened and returns `true` exactly when the write
completed with the full count; `Receive`, seeing the flag `false` at the loop
condition before attempt `d` with no check expired before, returns the count
of the bytes collected from attempts `0, ..., d - 1` (a value `≥ 0`, in
particular `0` when `d = 0`), never `-1`; with no byte collected it returns `0`
and hands the `RX timeout` warning to the logger at level `WARN` (written
unless the threshold is `ERR`), with bytes it logs their hex dump; the table
and the counter are unchanged. -/
theorem closed_in_flight (m : SerialPortManager) (h : Int) (ctx : PortContext)
    (hf : mapFind m.m_ports h = some ctx) (hlive : ctx.active = true) :
    (∀ (data : List Byte) (senv : SendEnv) (c : Nat), senv.closedAt = some (c + 1) →
      Send m h data senv = Send m h data { senv with closedAt := none } ∧
      (data.length < 2 ^ 64 → ((Send m h data senv).1 = true ↔
        (senv.ok = true ∧ toDWORD senv.wrote = data.length)))) ∧
    (∀ (out : List Byte) (renv : RecvEnv) (d fuel : Nat), renv.closedAt = some (d + 1) →
      (∀ j, j < d → ¬ expired renv j) → d < fuel →
      ∃ ret m1, Receive m h out renv fuel = some (ret, receivedBytes renv d, m1) ∧
        ret = toInt32 ((toSizeT (receivedBytes renv d).length : Nat) : Int) ∧
        ((receivedBytes renv d).length < 2 ^ 31 →
          ret = ((receivedBytes renv d).length : Int) ∧ ret ≠ -1) ∧
        (d = 0 → ret = 0) ∧
        (receivedBytes renv d = [] →
          ret = 0 ∧
          m1.logger = m.logger.Log LogLevel.WARN MODULE_NAME ("RX timeout " ++ ctx.portName) ∧
          (m.logger.m_level ≠ LogLevel.ERR → m1.logger.records = m.logger.records ++
            [⟨LogLevel.WARN, MODULE_NAME, "RX timeout " ++ ctx.portName⟩])) ∧
        (receivedBytes renv d ≠ [] →
          m1.logger = m.logger.LogHex LogLevel.DEBUG MODULE_NAME "RX" (receivedBytes renv d)) ∧
        m1.m_ports = m.m_ports ∧ m1.m_nextId = m.m_nextId) := by
  constructor
  · intro data senv c hc
    have h0 : activeAt ctx senv.closedAt 0 = true := by simp [activeAt, hlive, hc]
    have h1 : activeAt ctx none 0 = true := by simp [activeAt, hlive]
    refine ⟨?_, fun hL => (Send_outcome m h ctx data senv hf h0 hL).1⟩
    simp only [Send, hf, h0, h1]
  · intro out renv d fuel hc hno hfuel
    have h0 : activeAt ctx renv.closedAt 0 = true := by simp [activeAt, hlive, hc]
    obtain ⟨os1, hloop⟩ := recvLoop_closed ctx renv d 0 [] (m.os ++ [OsCall.GetTickCount]) fuel
      (fun j hj => by simpa using hno j hj)
      (fun j hj => by simp [activeAt, hlive, hc]; omega)
      (by simp [activeAt, hc]) hfuel
    rw [List.nil_append, ← receivedBytes_eq] at hloop
    have hrec := Receive_of_loop m h ctx out _ renv fuel os1 hf h0 hloop
    refine ⟨_, _, hrec, rfl, fun hlen => ?_, fun hd => ?_, fun hnil => ?_, fun hne => ?_,
      rfl, rfl⟩
    · rw [toInt32_length _ hlen]
      exact ⟨rfl, by omega⟩
    · subst hd
      have hz : receivedBytes renv 0 = [] := by simp [receivedBytes]
      rw [hz]
      rfl
    · refine ⟨?_, ?_, fun hlvl => ?_⟩
      · rw [hnil]; rfl
      · simp [hnil]
      · simp only [hnil, if_true]
        exact WARN_passes _ _ _ hlvl
    · simp [hne]

/-! ## Receive: the time bound -/

theorem dwordSub_elapsed (t0 t : Nat) (hle : t0 ≤ t) (hlt : t - t0 < 2 ^ 32) :
    dwordSub (toDWORD t) (toDWORD t0) = t - t0 := by
  unfold dwordSub toDWORD
  omega

theorem length_got_le (env : RecvEnv) (k : Nat) :
    (if gotByte (env.reads k) then [(env.reads k).b] else []).length ≤ 1 := by
  by_cases hg : gotByte (env.reads k) = true <;> simp [hg]

/-- Every byte read costs 10 ms: ten times the number of bytes read in the
attempts `0, ..., k` is at most the time elapsed at the check after attempt `k`. -/
theorem paced (env : RecvEnv) (T0 : Nat) (T : Nat → Nat) (n : Nat)
    (hmono0 : T0 ≤ T 0) (hmono : ∀ k, k < n → T k ≤ T (k + 1))
    (hpace0 : gotByte (env.reads 0) = true → T0 + 10 ≤ T 0)
    (hpace : ∀ k, k < n → gotByte (env.reads (k + 1)) = true → T k + 10 ≤ T (k + 1)) :
    ∀ k, k ≤ n → 10 * (bytesFrom env 0 (k + 1)).length + T0 ≤ T k := by
  intro k
  induction k with
  | zero =>
    intro _
    by_cases hg : gotByte (env.reads 0) = true
    · have := hpace0 hg
      simp [bytesFrom, hg]; omega
    · simp [bytesFrom, hg]; omega
  | succ k ih =>
    intro hk
    have h1 := ih (by omega)
    have h2 := hmono k (by omega)
    rw [bytesFrom_succ, List.length_append, Nat.zero_add]
    by_cases hg : gotByte (env.reads (k + 1)) = true
    · have := hpace k (by omega) hg
      simp [hg]; omega
    · simp [hg]; omega

/-- With the first expired check after attempt `n` and the session live at the
entry check, the loop leaves with the bytes of the attempts before some
`d ≤ n + 1`, and with `d = n + 1` when nobody closes the port. -/
theorem recvLoop_returns (ctx : PortContext) (env : RecvEnv) (n fuel : Nat) (os : List OsCall)
    (hact0 : activeAt ctx env.closedAt 0 = true)
    (hno : ∀ j, j < n → ¬ expired env j) (hexp : expired env n) (hfuel : n < fuel) :
    ∃ d os1, d ≤ n + 1 ∧ recvLoop ctx env fuel 0 [] os = some (bytesFrom env 0 d, os1) ∧
      (env.closedAt = none → d = n + 1) := by
  have hlive : ctx.active = true := by
    simp only [activeAt, Bool.and_eq_true] at hact0
    exact hact0.1
  have hno2 : ∀ j, j < n → ¬ expired env (0 + j) := fun j hj => by simpa using hno j hj
  have hexp2 : expired env (0 + n) := by simpa using hexp
  cases hc : env.closedAt with
  | none =>
    obtain ⟨os1, hl⟩ := recvLoop_expires ctx env n 0 [] os fuel hno2 hexp2
      (fun j _ => by simp [activeAt, hlive, hc]) hfuel
    exact ⟨n + 1, os1, Nat.le_refl _, by simpa using hl, fun _ => rfl⟩
  | some c =>
    by_cases hcn : n + 1 < c
    · obtain ⟨os1, hl⟩ := recvLoop_expires ctx env n 0 [] os fuel hno2 hexp2
        (fun j hj => by simp [activeAt, hlive, hc]; omega) hfuel
      exact ⟨n + 1, os1, Nat.le_refl _, by simpa using hl, fun _ => rfl⟩
    · have hc0 : 0 < c := by
        simp [activeAt, hc] at hact0
        exact hact0.2
      obtain ⟨os1, hl⟩ := recvLoop_closed ctx env (c - 1) 0 [] os fuel
        (fun j hj => hno2 j (by omega))
        (fun j hj => by simp [activeAt, hlive, hc]; omega)
        (by simp [activeAt, hc]; omega) (by omega)
      exact ⟨c - 1, os1, by omega, by simpa using hl, fun hn => by cases hn⟩

theorem bytesFrom_length_le (env : RecvEnv) (T0 : Nat) (T : Nat → Nat) (n : Nat)
    (hpaced : ∀ k, k ≤ n → 10 * (bytesFrom env 0 (k + 1)).length + T0 ≤ T k)
    (hbefore : ∀ k, k < n → T k - T0 ≤ 20) :
    ∀ d, d ≤ n + 1 → (bytesFrom env 0 d).length ≤ 3 := by
  have hearly : ∀ k, k < n → (bytesFrom env 0 (k + 1)).length ≤ 2 := by
    intro k hk
    have h1 := hpaced k (by omega)
    have h2 := hbefore k hk
    omega
  intro d hd
  rcases d with _ | d
  · simp [bytesFrom]
  · by_cases hdn : d < n
    · have := hearly d hdn
      omega
    · have hdn2 : d = n := by omega
      subst hdn2
      rcases d with _ | e
      · have := length_got_le env 0
        simpa [bytesFrom] using Nat.le_trans this (by omega)
      · rw [bytesFrom_succ, List.length_append]
        have h1 := hearly e (by omega)
        have h2 := length_got_le env (0 + (e + 1))
        omega

/-- C10. Let the tick readings be true times `T0` (at `start`) and
`T k` (at the check after attempt `k`) reduced to 32 bits, with time never
going backwards, at least 10 ms passing across the pause after each read that
returned a byte, and the elapsed time below `2 ^ 32` ms.  Then each check
computes the true elapsed time (also across a wrap of the counter), and if the
check after attempt `n` is the first that sees more than 20 ms elapsed,
`Receive` returns (given fuel for `n + 1` attempts) a value of at most 3; on a
registered session live at entry it returns the length of its buffer, at most
3 bytes, which are those of attempts `0, ..., n` when the session stays live. -/
theorem Receive_at_most_three (m : SerialPortManager) (h : Int) (out : List Byte)
    (env : RecvEnv) (T0 : Nat) (T : Nat → Nat) (n fuel : Nat)
    (hstart : env.start = toDWORD T0) (hticks : ∀ k, k ≤ n → env.ticks k = toDWORD (T k))
    (hmono0 : T0 ≤ T 0) (hmono : ∀ k, k < n → T k ≤ T (k + 1))
    (hpace0 : gotByte (env.reads 0) = true → T0 + 10 ≤ T 0)
    (hpace : ∀ k, k < n → gotByte (env.reads (k + 1)) = true → T k + 10 ≤ T (k + 1))
    (hbound : T n - T0 < 2 ^ 32)
    (hbefore : ∀ k, k < n → T k - T0 ≤ 20) (hafter : 20 < T n - T0) (hfuel : n < fuel) :
    (∀ k, k ≤ n → dwordSub (env.ticks k) env.start = T k - T0) ∧
      ∃ ret bytes m1, Receive m h out env fuel = some (ret, bytes, m1) ∧ ret ≤ 3 ∧
        ∀ ctx, mapFind m.m_ports h = some ctx → activeAt ctx env.closedAt 0 = true →
          bytes.length ≤ 3 ∧ ret = (bytes.length : Int) ∧
          (env.closedAt = none → bytes = receivedBytes env (n + 1)) := by
  have hpaced := paced env T0 T n hmono0 hmono hpace0 hpace
  have hge : ∀ k, k ≤ n → T0 ≤ T k := fun k hk => by
    have := hpaced k hk
    omega
  have hup : ∀ k, k ≤ n → T k ≤ T n := by
    intro k hk
    by_cases hkn : k = n
    · rw [hkn]
    · have := hbefore k (by omega)
      omega
  have helapsed : ∀ k, k ≤ n → dwordSub (env.ticks k) env.start = T k - T0 := by
    intro k hk
    rw [hticks k hk, hstart]
    have h1 := hge k hk
    have h2 := hup k hk
    exact dwordSub_elapsed T0 (T k) h1 (by omega)
  refine ⟨helapsed, ?_⟩
  have hno : ∀ j, j < n → ¬ expired env j := by
    intro j hj
    unfold expired
    rw [helapsed j (by omega)]
    have := hbefore j hj
    omega
  have hexp : expired env n := by
    unfold expired
    rw [helapsed n (Nat.le_refl n)]
    exact hafter
  cases hf : mapFind m.m_ports h with
  | none =>
    exact ⟨-1, out, m, Receive_absent m h out env fuel hf, by omega,
      fun ctx hctx => by cases hctx⟩
  | some ctx =>
    by_cases hact0 : activeAt ctx env.closedAt 0 = true
    · obtain ⟨d, os1, hd, hloop, hdn⟩ := recvLoop_returns ctx env n fuel
        (m.os ++ [OsCall.GetTickCount]) hact0 hno hexp hfuel
      have hrec := Receive_of_loop m h ctx out _ env fuel os1 hf hact0 hloop
      have hlen := bytesFrom_length_le env T0 T n hpaced hbefore d hd
      have hret := toInt32_length (bytesFrom env 0 d).length (by omega)
      refine ⟨_, _, _, hrec, ?_, fun c hc _ => ⟨hlen, hret, fun hnone => ?_⟩⟩
      · rw [hret]
        omega
      · rw [hdn hnone, receivedBytes_eq]
    · refine ⟨-1, out, m, ?_, by omega, fun c hc hc0 => ?_⟩
      · simp [Receive, hf, hact0]
      · cases hc
        exact absurd hc0 hact0

/-! ## The theorems at concrete inputs -/

/-- C1 at a concrete input: `COM7` opened as handle 1 and closed again. -/
theorem unknown_handle_fails_witness :
    outstanding [Event.closed 1, Event.opened 1] 1 = false ∧
      ((∀ data env, Send (ClosePort com7Open 1) 1 data env = (false, ClosePort com7Open 1)) ∧
        (∀ out env fuel, Receive (ClosePort com7Open 1) 1 out env fuel =
          some (-1, out, ClosePort com7Open 1))) :=
  ⟨by decide, unknown_handle_fails LogLevel.DEBUG
    [Call.OpenPort "COM7" 9600 openOk, Call.ClosePort 1] (ClosePort com7Open 1)
    [Event.closed 1, Event.opened 1] 1 (by decide) (by decide)⟩

/-- C2 (amended) at a concrete input: the three successful opens of `sampleCalls`. -/
theorem handles_increasing_witness :
    openedHandles [Event.opened 3, Event.closed 1, Event.openFailed, Event.opened 2,
        Event.opened 1] = [3, 2, 1] ∧
      (∀ h ∈ openedHandles [Event.opened 3, Event.closed 1, Event.openFailed, Event.opened 2,
        Event.opened 1], 0 < h) := by
  have hw := handles_increasing LogLevel.DEBUG sampleCalls _
    [Event.opened 3, Event.closed 1, Event.openFailed, Event.opened 2, Event.opened 1]
    rfl (by decide)
  exact ⟨by decide, hw.2.1⟩

/-- C4 at a concrete input: a two-byte payload of which one byte is written. -/
theorem Send_live_witness :
    (Send com7Open 1 [1, 2] shortWrite).1 = false ∧
      (Send com7Open 1 [1, 2] shortWrite).2.logger.records = com7Open.logger.records ++
        [⟨LogLevel.ERR, "SerialPort", "Send fail COM7 HEX=01 02  err=No error"⟩] ∧
      (Send com7Open 1 [1, 2] shortWrite).2.os = com7Open.os ++
        [OsCall.WriteFile 7 [1, 2] 2, OsCall.Sleep 10] := by
  have hw := Send_live com7Open 1 com7Ctx [1, 2] shortWrite (by decide) (by decide)
    (by decide)
  have hfalse : (Send com7Open 1 [1, 2] shortWrite).1 = false := by decide
  exact ⟨hfalse, hw.2.1 hfalse, hw.2.2⟩

theorem echo_not_expired : ∀ j, j < 2 → ¬ expired echoEnv j := by
  intro j hj
  have h0 : dwordSub 1010 1000 = 10 := by unfold dwordSub toDWORD; omega
  have h1 : dwordSub 1020 1000 = 20 := by unfold dwordSub toDWORD; omega
  interval_cases j
  · show ¬ dwordSub 1010 1000 > 20
    rw [h0]; omega
  · show ¬ dwordSub 1020 1000 > 20
    rw [h1]; omega

theorem echo_expired : expired echoEnv 2 := by
  have h2 : dwordSub 1041 1000 = 41 := by unfold dwordSub toDWORD; omega
  show dwordSub 1041 1000 > 20
  rw [h2]; omega

theorem echo_received : receivedBytes echoEnv 3 = [1, 2] := by
  decide

/-- C5 at a concrete input: the bytes `0x01, 0x02` delivered by successive reads. -/
theorem Receive_collects_witness :
    ∃ ret m1, Receive com7Open 1 [0xff] echoEnv 3 = some (ret, [1, 2], m1) ∧ ret = 2 ∧
      m1.logger = com7Open.logger.LogHex LogLevel.DEBUG MODULE_NAME "RX" [1, 2] := by
  obtain ⟨ret, m1, hrec, -, hlen, -, hlog, -⟩ :=
    Receive_collects com7Open 1 com7Ctx [0xff] echoEnv 2 3 (by decide) rfl rfl
      echo_not_expired echo_expired (by omega)
  rw [echo_received] at hrec hlen hlog
  exact ⟨ret, m1, hrec, hlen (by decide), hlog (by decide)⟩

/-- C6 (amended) at a concrete input: handle 1 of `com7Open` closed in flight.
The write completes and `Send` returns `true`; `Receive` returns the one byte
read before the close, and `0` with the timeout warning when closed before the
first attempt. -/
theorem closed_in_flight_witness :
    (Send com7Open 1 [1, 2] closedWrite).1 = true ∧
      (∃ ret m1, Receive com7Open 1 [0xff] (closingEnv 2) 5 =
        some (ret, receivedBytes (closingEnv 2) 1, m1) ∧ ret ≠ -1) ∧
      ∃ ret m1, Receive com7Open 1 [0xff] (closingEnv 1) 5 = some (ret, [], m1) ∧ ret = 0 ∧
        m1.logger.records = com7Open.logger.records ++
          [⟨LogLevel.WARN, MODULE_NAME, "RX timeout COM7"⟩] := by
  have hw := closed_in_flight com7Open 1 com7Ctx (by decide) rfl
  refine ⟨((hw.1 [1, 2] closedWrite 0 rfl).2 (by decide)).2 ⟨rfl, by decide⟩, ?_, ?_⟩
  · obtain ⟨ret, m1, hrec, -, hlen, -⟩ := hw.2 [0xff] (closingEnv 2) 1 5 rfl
      (fun j hj => by
        have h0 : dwordSub 1010 1000 = 10 := by unfold dwordSub toDWORD; omega
        show ¬ dwordSub 1010 1000 > 20
        rw [h0]; omega)
      (by omega)
    exact ⟨ret, m1, hrec, (hlen (by decide)).2⟩
  · obtain ⟨ret, m1, hrec, -, -, -, hnil, -⟩ := hw.2 [0xff] (closingEnv 1) 0 5 rfl
      (fun j hj => absurd hj (Nat.not_lt_zero j)) (by omega)
    have hz : receivedBytes (closingEnv 1) 0 = [] := by simp [receivedBytes]
    rw [hz] at hrec
    obtain ⟨hret, -, hrecs⟩ := hnil hz
    exact ⟨ret, m1, hrec, hret, hrecs (by decide)⟩

/-- C8 at a concrete input: the bytes `0x01, 0xab` logged with prefix `TX`. -/
theorem LogHex_message_witness :
    LogLevel.DEBUG.toNat ≤ LogLevel.DEBUG.toNat ∧
      (Logger.LogHex ⟨LogLevel.DEBUG, []⟩ LogLevel.DEBUG "SerialPort" "TX" [1, 0xab]).records =
        [⟨LogLevel.DEBUG, "SerialPort", "TX LEN=2 HEX=01 ab "⟩] ∧
      (ToHexString [1, 0xab]).length = 6 ∧
      parseHex (ToHexString [1, 0xab]).data = [1, 171] := by
  have hw := LogHex_message ⟨LogLevel.DEBUG, []⟩ LogLevel.DEBUG "SerialPort" "TX" [1, 0xab]
    (by decide)
  have hhex : ToHexString [1, 0xab] = "01 ab " := by decide
  refine ⟨by decide, ?_, hw.2.2.1, hw.2.2.2⟩
  rw [hw.1, hhex]
  decide

/-- C10 at a concrete input: `echoEnv`, whose third check is the first to expire. -/
theorem Receive_at_most_three_witness :
    ∃ ret bytes m1, Receive com7Open 1 [0xff] echoEnv 3 = some (ret, bytes, m1) ∧ ret ≤ 3 ∧
      bytes = [1, 2] := by
  obtain ⟨-, ret, bytes, m1, hrec, hret, hreg⟩ :=
    Receive_at_most_three com7Open 1 [0xff] echoEnv 1000 echoEnv.ticks 2 3 rfl
      (fun k hk => by interval_cases k <;> rfl)
      (by decide)
      (fun k hk => by interval_cases k <;> decide)
      (fun _ => by decide)
      (fun k hk _ => by interval_cases k <;> decide)
      (by decide)
      (fun k hk => by interval_cases k <;> decide)
      (by decide) (by omega)
  have hb := (hreg com7Ctx (by decide) rfl).2.2 rfl
  rw [echo_received] at hb
  exact ⟨ret, bytes, m1, hrec, hret, hb⟩

end YDLight
